import Mathlib

/-!
Verification of the claude-code-go core: permission rule parser and
evaluator, permission callback chaining, budget tracker, and plugin
lifecycle manager.  Each Go function is embedded as an executable Lean
definition; Go strings are Lean `String`s, Go `error` results are modelled
with `Except String` / `Option`, Go `float64` amounts are modelled as
exact rationals, and hook invocations are made observable as traces of
plugin names returned alongside each result.
-/

set_option maxHeartbeats 1000000

/-! ## Go string helpers (strings package) -/

/-- The whitespace set trimmed by Go `strings.TrimSpace` (`unicode.IsSpace`),
restricted to the characters it recognises in Latin-1. -/
def goIsSpace (c : Char) : Bool :=
  c = ' ' || c = '\t' || c = '\n' || c = '\x0b' || c = '\x0c' || c = '\r' ||
  c = '\u0085' || c = ' '

/-- Go `strings.TrimSpace`: drop whitespace from both ends. -/
def goTrimSpace (s : String) : String :=
  ⟨((s.data.dropWhile goIsSpace).reverse.dropWhile goIsSpace).reverse⟩

/-- `listHasPrefixB s p` decides whether `p` is a prefix of `s` (on char lists). -/
def listHasPrefixB : List Char → List Char → Bool
  | _, [] => true
  | [], _ :: _ => false
  | c :: cs, p :: ps => p == c && listHasPrefixB cs ps

/-- Go `strings.HasPrefix s pre`. -/
def goHasPrefixB (s pre : String) : Bool :=
  listHasPrefixB s.data pre.data

/-- Go `strings.HasSuffix s suf`. -/
def goHasSuffixB (s suf : String) : Bool :=
  listHasPrefixB s.data.reverse suf.data.reverse

/-- Go `strings.TrimSuffix s suf`: remove one trailing occurrence of `suf`, if present. -/
def goTrimSuffixStr (s suf : String) : String :=
  if goHasSuffixB s suf then ⟨s.data.take (s.data.length - suf.data.length)⟩ else s

/-- Go `strings.TrimPrefix s pre`: remove one leading occurrence of `pre`, if present. -/
def goTrimPrefixStr (s pre : String) : String :=
  if goHasPrefixB s pre then ⟨s.data.drop pre.data.length⟩ else s

/-! ## ToolPermission and its parser (permissions.go) -/

/-- Parsed tool permission (`ToolPermission` in permissions.go). -/
structure ToolPermission where
  Tool : String
  Command : String
  Pattern : String
  Original : String
deriving DecidableEq, Repr

/-- Matching of the regex `^([^(]+)\(([^:)]+)(?::([^:)]+))?\)$` used by
`ParseToolPermission` for the enhanced format.  Returns the three capture
groups (tool, command, optional pattern).  Since the first class excludes
`(` and the inner classes exclude `:` and `)`, the regex matches exactly
when: the (nonempty) text before the first `(` is group 1; the text between
that `(` and a final `)` (which must be the last character, with no other
`)` inside) splits on at most one `:` into the nonempty groups 2 and 3. -/
def permRegexMatch (cs : List Char) : Option (List Char × List Char × Option (List Char)) :=
  let tool := cs.takeWhile (fun c => !(c = '('))
  match cs.dropWhile (fun c => !(c = '(')) with
  | [] => none
  | _ :: inside =>
    if tool.isEmpty then none
    else
      match inside.reverse with
      | [] => none
      | last :: revBody =>
        if !(last = ')') then none
        else
          let body := revBody.reverse
          if body.contains ')' then none
          else
            let cmd := body.takeWhile (fun c => !(c = ':'))
            match body.dropWhile (fun c => !(c = ':')) with
            | [] => if cmd.isEmpty then none else some (tool, cmd, none)
            | _ :: pat =>
              if cmd.isEmpty || pat.isEmpty || pat.contains ':' then none
              else some (tool, cmd, some pat)

/-- `ParseToolPermission` from permissions.go.  Errors are the Go error
messages (without the quoting of the offending string). -/
def ParseToolPermission (permission : String) : Except String ToolPermission :=
  if permission = "" then .error "empty permission string"
  else if !(permission.data.contains '(') then
    .ok { Tool := goTrimSpace permission, Command := "", Pattern := "",
          Original := permission }
  else
    match permRegexMatch permission.data with
    | none => .error ("invalid tool permission format: " ++ permission)
    | some (toolRaw, cmdRaw, patRaw) =>
      let tool := goTrimSpace ⟨toolRaw⟩
      let command := goTrimSpace ⟨cmdRaw⟩
      let pattern := match patRaw with
        | none => ""
        | some p => goTrimSpace ⟨p⟩
      if tool = "" then .error ("tool name cannot be empty in permission: " ++ permission)
      else if command = "" then .error ("command cannot be empty in permission: " ++ permission)
      else .ok { Tool := tool, Command := command, Pattern := pattern,
                 Original := permission }

/-- `HasCommand` from permissions.go. -/
def ToolPermission.HasCommand (tp : ToolPermission) : Bool :=
  !(tp.Command = "")

/-- `HasPattern` from permissions.go. -/
def ToolPermission.HasPattern (tp : ToolPermission) : Bool :=
  !(tp.Pattern = "")

/-- `MatchesPattern` from permissions.go. -/
def ToolPermission.MatchesPattern (tp : ToolPermission) (path : String) : Bool :=
  if !(tp.HasPattern) then true
  else if tp.Pattern = "*" then true
  else if tp.Pattern = path then true
  else if goHasSuffixB tp.Pattern "**" then goHasPrefixB path (goTrimSuffixStr tp.Pattern "**")
  else if goHasSuffixB tp.Pattern "*" then goHasPrefixB path (goTrimSuffixStr tp.Pattern "*")
  else if goHasPrefixB tp.Pattern "*" then goHasSuffixB path (goTrimPrefixStr tp.Pattern "*")
  else false

deriving instance DecidableEq for Except

/-- The pattern-matching decision sequence exactly as the specification
words it (`MatchesPattern` in §4.2): no constraint; literal `*`; exact
equality; trailing `**` (prefix test on the pattern minus its two last
characters); trailing single `*` (prefix test on the pattern minus its
last character); leading `*` (suffix test on the pattern minus its first
character); otherwise no match.  Stated over Lean list primitives, to be
compared with the embedding of the Go code. -/
def specMatchesPattern (pattern path : String) : Bool :=
  if pattern = "" then true
  else if pattern = "*" then true
  else if pattern = path then true
  else if ("**" : String).data.isSuffixOf pattern.data then
    pattern.data.dropLast.dropLast.isPrefixOf path.data
  else if ("*" : String).data.isSuffixOf pattern.data then
    pattern.data.dropLast.isPrefixOf path.data
  else if ("*" : String).data.isPrefixOf pattern.data then
    (pattern.data.drop 1).isSuffixOf path.data
  else false

/-! ## Permission results and callback chaining (permissions.go) -/

/-- `PermissionBehavior` constant `"allow"`. -/
def PermissionAllow : String := "allow"

/-- `PermissionBehavior` constant `"deny"`. -/
def PermissionDeny : String := "deny"

/-- `PermissionBehavior` constant `"ask"`. -/
def PermissionAsk : String := "ask"

/-- `PermissionResult` from permissions.go (`Behavior` is a Go string type). -/
structure PermissionResult where
  Behavior : String
  Message : String
deriving DecidableEq, Repr

/-- `Allow()` from permissions.go. -/
def Allow : PermissionResult :=
  { Behavior := PermissionAllow, Message := "" }

/-- `Deny(message)` from permissions.go. -/
def Deny (message : String) : PermissionResult :=
  { Behavior := PermissionDeny, Message := message }

/-- `Ask(message)` from permissions.go. -/
def Ask (message : String) : PermissionResult :=
  { Behavior := PermissionAsk, Message := message }

/-- `ToolInput` from permissions.go.  The `Raw` map holds dynamically typed
values opaque to this core; it is modelled as an association list of opaque
strings. -/
structure ToolInput where
  Command : String := ""
  FilePath : String := ""
  Pattern : String := ""
  Content : String := ""
  OldString : String := ""
  NewString : String := ""
  Raw : List (String × String) := []
deriving DecidableEq, Repr

/-- `PermissionCallback` from permissions.go: `(ctx, toolName, input) →
(PermissionResult, error)`.  The opaque context is dropped; the Go
`(result, err)` pair with `err ≠ nil` is `Except.error`. -/
def PermissionCallback : Type :=
  String → ToolInput → Except String PermissionResult

/-- The loop body of `ChainCallbacks`: iterate the callbacks in order,
skipping nil entries, aborting on error, short-circuiting on a non-allow
result. -/
def chainLoop (toolName : String) (input : ToolInput) :
    List (Option PermissionCallback) → Except String PermissionResult
  | [] => .ok Allow
  | none :: rest => chainLoop toolName input rest
  | some cb :: rest =>
    match cb toolName input with
    | .error err => .error err
    | .ok result =>
      if !(result.Behavior = PermissionAllow) then .ok result
      else chainLoop toolName input rest

/-- `ChainCallbacks` from permissions.go (variadic callbacks as a list;
a `none` entry is a nil Go function). -/
def ChainCallbacks (callbacks : List (Option PermissionCallback)) : PermissionCallback :=
  fun toolName input => chainLoop toolName input callbacks

/-- A chain element lets execution continue past it exactly when it is a
nil function (skipped) or returns an allow result without error. -/
def chainAllows (c : Option PermissionCallback) (toolName : String) (input : ToolInput) : Prop :=
  match c with
  | none => True
  | some cb => ∃ r, cb toolName input = .ok r ∧ r.Behavior = PermissionAllow

/-- A callback that denies with message `blocked` (for concrete chains). -/
def denyCbExample : PermissionCallback :=
  fun _ _ => .ok (Deny "blocked")

/-- A callback that allows (for concrete chains). -/
def allowCbExample : PermissionCallback :=
  fun _ _ => .ok Allow

/-! ## Budget tracker (budget file) -/

/-- The dedicated sentinel error `ErrBudgetExceeded`. -/
inductive BudgetErr where
  | budgetExceeded
deriving DecidableEq, Repr

/-- `BudgetConfig`.  Amounts (Go `float64`) are modelled as exact
rationals; the two fire-and-forget notification callbacks are a side
channel that never affects tracker state other than the `warningEmitted`
latch, and are omitted. -/
structure BudgetConfig where
  MaxBudgetUSD : ℚ := 0
  WarningThreshold : ℚ := 0
deriving DecidableEq, Repr

/-- `BudgetTracker` state.  The Go `map[string]float64` is an association
list; a missing key reads as `0`. -/
structure BudgetTracker where
  totalSpent : ℚ
  sessionSpent : List (String × ℚ)
  config : BudgetConfig
  warningEmitted : Bool
deriving DecidableEq, Repr

/-- Map read with Go semantics: missing key yields the zero value. -/
def assocGet (m : List (String × ℚ)) (k : String) : ℚ :=
  match m.find? (fun kv => kv.1 == k) with
  | some kv => kv.2
  | none => 0

/-- Map write: replace the binding for `k`, or append it. -/
def assocSet : List (String × ℚ) → String → ℚ → List (String × ℚ)
  | [], k, v => [(k, v)]
  | kv :: rest, k, v => if kv.1 == k then (k, v) :: rest else kv :: assocSet rest k v

/-- Map delete. -/
def assocDelete (m : List (String × ℚ)) (k : String) : List (String × ℚ) :=
  m.filter (fun kv => !(kv.1 == k))

/-- `NewBudgetTracker` (nil config defaults to the zero config). -/
def NewBudgetTracker (config : Option BudgetConfig) : BudgetTracker :=
  { totalSpent := 0, sessionSpent := [],
    config := config.getD {}, warningEmitted := false }

/-- `TotalSpent`. -/
def BudgetTracker.TotalSpent (bt : BudgetTracker) : ℚ :=
  bt.totalSpent

/-- `SessionSpent`. -/
def BudgetTracker.SessionSpent (bt : BudgetTracker) (sessionID : String) : ℚ :=
  assocGet bt.sessionSpent sessionID

/-- `RemainingBudget`: `-1` when unlimited, else clamped at `0`. -/
def BudgetTracker.RemainingBudget (bt : BudgetTracker) : ℚ :=
  if bt.config.MaxBudgetUSD ≤ 0 then -1
  else
    let remaining := bt.config.MaxBudgetUSD - bt.totalSpent
    if remaining < 0 then 0 else remaining

/-- `CanSpend`. -/
def BudgetTracker.CanSpend (bt : BudgetTracker) (amount : ℚ) : Bool :=
  if bt.config.MaxBudgetUSD ≤ 0 then true
  else decide (bt.totalSpent + amount ≤ bt.config.MaxBudgetUSD)

/-- `AddSpend`: record the spend in both totals, latch/fire the warning,
and return `ErrBudgetExceeded` iff a positive budget is newly exceeded.
The asynchronous callback dispatches carry no state and are omitted. -/
def BudgetTracker.AddSpend (bt : BudgetTracker) (sessionID : String) (amount : ℚ) :
    BudgetTracker × Option BudgetErr :=
  let totalSpent := bt.totalSpent + amount
  let sessionSpent :=
    assocSet bt.sessionSpent sessionID (assocGet bt.sessionSpent sessionID + amount)
  let warningEmitted :=
    if 0 < bt.config.MaxBudgetUSD ∧ 0 < bt.config.WarningThreshold ∧
        bt.warningEmitted = false ∧
        bt.config.MaxBudgetUSD * bt.config.WarningThreshold ≤ totalSpent
    then true else bt.warningEmitted
  let bt2 : BudgetTracker :=
    { bt with totalSpent := totalSpent, sessionSpent := sessionSpent,
              warningEmitted := warningEmitted }
  if 0 < bt.config.MaxBudgetUSD ∧ bt.config.MaxBudgetUSD < totalSpent then
    (bt2, some .budgetExceeded)
  else
    (bt2, none)

/-- `Reset`. -/
def BudgetTracker.Reset (bt : BudgetTracker) : BudgetTracker :=
  { bt with totalSpent := 0, sessionSpent := [], warningEmitted := false }

/-- `ResetSession`: subtract the session contribution and drop the key,
when present. -/
def BudgetTracker.ResetSession (bt : BudgetTracker) (sessionID : String) : BudgetTracker :=
  match bt.sessionSpent.find? (fun kv => kv.1 == sessionID) with
  | some kv =>
    { bt with totalSpent := bt.totalSpent - kv.2,
              sessionSpent := assocDelete bt.sessionSpent sessionID }
  | none => bt

/-- Empty tracker with `max = 10` (spec §8 budget round-trip). -/
def btExample0 : BudgetTracker :=
  NewBudgetTracker (some { MaxBudgetUSD := 10 })

/-- After `AddSpend("s1", 5)`. -/
def btExample1 : BudgetTracker :=
  (btExample0.AddSpend "s1" 5).1

/-- After the further `AddSpend("s1", 6)`. -/
def btExample2 : BudgetTracker :=
  (btExample1.AddSpend "s1" 6).1

/-! ## Plugin manager (plugin file)

A Go `Plugin` is an interface whose hook methods run arbitrary effects and
return an error.  It is embedded as a record of pure outcome functions: each
hook's return value is a fixed (input-dependent) `Except`.  Hook
*invocations* — the observable effect the spec reasons about — are made
explicit: every manager operation returns, along with its Go result, the
trace of plugin names whose hook it actually invoked, in invocation order. -/

/-- `Message` (defined elsewhere in the repository; opaque payload here).
`Type` is a Lean keyword, so the Go field `Type` is `MsgType`. -/
structure Message where
  MsgType : String := ""
  Subtype : String := ""
deriving DecidableEq, Repr

/-- `ClaudeResult` (defined elsewhere in the repository; opaque payload here). -/
structure ClaudeResult where
  CostUSD : ℚ := 0
  NumTurns : Int := 0
  IsError : Bool := false
deriving DecidableEq, Repr

/-- A `Plugin`: identity plus the outcome of each lifecycle hook. -/
structure Plugin where
  name : String
  version : String := "1.0.0"
  initResult : Except String Unit := .ok ()
  toolCallResult : String → ToolInput → Except String Unit := fun _ _ => .ok ()
  messageResult : Message → Except String Unit := fun _ => .ok ()
  completeResult : ClaudeResult → Except String Unit := fun _ => .ok ()
  shutdownResult : Except String Unit := .ok ()

/-- `PluginConfig` from the plugin file (the plugin-specific `Config` map is
opaque payload the manager never reads, and is omitted). -/
structure PluginConfig where
  Enabled : Bool
  Priority : Int := 0
deriving DecidableEq, Repr

/-- `pluginEntry`: a plugin, its config pointer (`none` = nil), and the
derived priority. -/
structure pluginEntry where
  plugin : Plugin
  config : Option PluginConfig
  priority : Int

/-- `PluginManager` state (the lock is irrelevant to the sequential
semantics modelled here). -/
structure PluginManager where
  plugins : List pluginEntry
  initialized : Bool

/-- `NewPluginManager`. -/
def NewPluginManager : PluginManager :=
  { plugins := [], initialized := false }

/-- The insertion loop of `Register`: insert before the first entry of
strictly greater priority, else append. -/
def insertByPriority (entry : pluginEntry) : List pluginEntry → List pluginEntry
  | [] => [entry]
  | e :: rest =>
    if entry.priority < e.priority then entry :: e :: rest
    else e :: insertByPriority entry rest

/-- The effective priority `Register` derives from a config pointer:
default config when nil, and `0` normalized to `100`. -/
def effPriority (config : Option PluginConfig) : Int :=
  let c := config.getD { Enabled := true, Priority := 100 }
  if c.Priority = 0 then 100 else c.Priority

/-- `Register` from the plugin file.  A `none` plugin is a nil Go pointer. -/
def PluginManager.Register (pm : PluginManager) (pluginArg : Option Plugin)
    (config : Option PluginConfig) : Except String PluginManager :=
  match pluginArg with
  | none => .error "plugin cannot be nil"
  | some plugin =>
    if plugin.name = "" then .error "plugin name cannot be empty"
    else if pm.plugins.any (fun e => e.plugin.name == plugin.name) then
      .error ("plugin with name " ++ plugin.name ++ " already registered")
    else
      let cfg := config.getD { Enabled := true, Priority := 100 }
      let priority := if cfg.Priority = 0 then 100 else cfg.Priority
      let entry : pluginEntry := { plugin := plugin, config := some cfg, priority := priority }
      .ok { pm with plugins := insertByPriority entry pm.plugins }

/-- `Unregister`. -/
def PluginManager.Unregister (pm : PluginManager) (name : String) :
    Except String PluginManager :=
  if pm.plugins.any (fun e => e.plugin.name == name) then
    .ok { pm with plugins := pm.plugins.filter (fun e => !(e.plugin.name == name)) }
  else .error ("plugin " ++ name ++ " not found")

/-- The skip condition `entry.config != nil && !entry.config.Enabled`
shared by `Initialize`, `OnToolCall`, `OnMessage` and `OnComplete`. -/
def entryDisabled (e : pluginEntry) : Bool :=
  match e.config with
  | some c => !c.Enabled
  | none => false

/-- The common hook-dispatch loop of `Initialize`, `OnToolCall`,
`OnMessage` and `OnComplete` (all four Go loops are identical up to the
hook being called and the error-wrapping message): skip disabled entries,
invoke the hook on each remaining entry in list order, and stop at the
first error, returning it wrapped.  Also returns the trace of invoked
plugin names. -/
def hookLoop (wrap : String → String → String) (hook : pluginEntry → Except String Unit) :
    List pluginEntry → List String × Except String Unit
  | [] => ([], .ok ())
  | e :: rest =>
    if entryDisabled e then hookLoop wrap hook rest
    else
      match hook e with
      | .error err => ([e.plugin.name], .error (wrap e.plugin.name err))
      | .ok () =>
        let r := hookLoop wrap hook rest
        (e.plugin.name :: r.1, r.2)

/-- Error wrapper of `Initialize` (Go `failed to initialize plugin %s: %w`). -/
def wrapInit (name err : String) : String :=
  "failed to initialize plugin " ++ name ++ ": " ++ err

/-- Error wrapper of `OnToolCall` (Go `plugin %s rejected tool call: %w`). -/
def wrapToolCall (name err : String) : String :=
  "plugin " ++ name ++ " rejected tool call: " ++ err

/-- Error wrapper of `OnMessage` (Go `plugin %s error on message: %w`). -/
def wrapMessage (name err : String) : String :=
  "plugin " ++ name ++ " error on message: " ++ err

/-- Error wrapper of `OnComplete` (Go `plugin %s error on complete: %w`). -/
def wrapComplete (name err : String) : String :=
  "plugin " ++ name ++ " error on complete: " ++ err

/-- `Initialize`: no-op when already initialized; otherwise run the
dispatch loop over the entries and set the flag only on full success.
Returns the new state, the trace of invoked plugins, and the Go result. -/
def PluginManager.Initialize (pm : PluginManager) :
    PluginManager × List String × Except String Unit :=
  if pm.initialized then (pm, [], .ok ())
  else
    match hookLoop wrapInit (fun e => e.plugin.initResult) pm.plugins with
    | (tr, .ok ()) => ({ pm with initialized := true }, tr, .ok ())
    | (tr, .error err) => (pm, tr, .error err)

/-- `OnToolCall`: dispatch to every enabled entry, fail-fast. -/
def PluginManager.OnToolCall (pm : PluginManager) (toolName : String) (input : ToolInput) :
    List String × Except String Unit :=
  hookLoop wrapToolCall (fun e => e.plugin.toolCallResult toolName input) pm.plugins

/-- `OnMessage`: dispatch to every enabled entry, fail-fast. -/
def PluginManager.OnMessage (pm : PluginManager) (msg : Message) :
    List String × Except String Unit :=
  hookLoop wrapMessage (fun e => e.plugin.messageResult msg) pm.plugins

/-- `OnComplete`: dispatch to every enabled entry, fail-fast. -/
def PluginManager.OnComplete (pm : PluginManager) (result : ClaudeResult) :
    List String × Except String Unit :=
  hookLoop wrapComplete (fun e => e.plugin.completeResult result) pm.plugins

/-- The reverse iteration of `Shutdown`, head of the list first (callers
pass `pm.plugins.reverse`).  Every entry is visited — disabled ones
included — and `lastErr` keeps the error of the latest failing entry. -/
def shutdownLoop : List pluginEntry → List String × Option String
  | [] => ([], none)
  | e :: rest =>
    let step : Option String :=
      match e.plugin.shutdownResult with
      | .error err => some ("failed to shutdown plugin " ++ e.plugin.name ++ ": " ++ err)
      | .ok () => none
    let r := shutdownLoop rest
    (e.plugin.name :: r.1,
      match r.2 with
      | some l => some l
      | none => step)

/-- `Shutdown`: visit every entry in reverse registry order, collect the
last error, and reset the initialized flag unconditionally. -/
def PluginManager.Shutdown (pm : PluginManager) :
    PluginManager × List String × Option String :=
  let r := shutdownLoop pm.plugins.reverse
  ({ pm with initialized := false }, r.1, r.2)

/-- `List()`: names in registry order. -/
def PluginManager.List (pm : PluginManager) : List String :=
  pm.plugins.map (fun e => e.plugin.name)

/-- `Count()`. -/
def PluginManager.Count (pm : PluginManager) : Nat :=
  pm.plugins.length

/-- `SetEnabled`: toggle the flag on the named entry (creating a default
config if the entry has a nil one); `NotFound` error otherwise. -/
def PluginManager.SetEnabled (pm : PluginManager) (name : String) (enabled : Bool) :
    Except String PluginManager :=
  if pm.plugins.any (fun e => e.plugin.name == name) then
    .ok { pm with plugins := pm.plugins.map (fun e =>
      if e.plugin.name == name then
        match e.config with
        | none => { e with config := some { Enabled := enabled, Priority := 100 } }
        | some c => { e with config := some { c with Enabled := enabled } }
      else e) }
  else .error ("plugin " ++ name ++ " not found")

/-- `registerAll`: fold a sequence of `Register` calls, aborting on the
first failure (used to state properties of "every sequence of successful
Register calls"). -/
def registerAll (pm : PluginManager) :
    List (Plugin × Option PluginConfig) → Except String PluginManager
  | [] => .ok pm
  | r :: rest =>
    match pm.Register (some r.1) r.2 with
    | .ok pm2 => registerAll pm2 rest
    | .error err => .error err

/-- The enabled entries, in registry order. -/
def enabledEntries (pm : PluginManager) : List pluginEntry :=
  pm.plugins.filter (fun e => !entryDisabled e)

/-! ## Concrete fixtures used in the example clauses and witnesses -/

/-- A plugin with the given name whose hooks all succeed. -/
def mkPlugin (name : String) : Plugin :=
  { name := name }

/-- A plugin whose `OnToolCall` hook fails with the given message. -/
def mkToolFailPlugin (name msg : String) : Plugin :=
  { name := name, toolCallResult := fun _ _ => .error msg }

/-- A plugin whose `Shutdown` hook fails with the given message. -/
def mkShutFailPlugin (name msg : String) : Plugin :=
  { name := name, shutdownResult := .error msg }

/-- An entry as `Register` would build it. -/
def entryOf (p : Plugin) (enabled : Bool) (pri : Int) : pluginEntry :=
  { plugin := p, config := some { Enabled := enabled, Priority := pri }, priority := pri }

/-- Registration requests A/200, B/50, C/100 (spec §8 ordering example). -/
def reqsABC : List (Plugin × Option PluginConfig) :=
  [(mkPlugin "A", some { Enabled := true, Priority := 200 }),
   (mkPlugin "B", some { Enabled := true, Priority := 50 }),
   (mkPlugin "C", some { Enabled := true, Priority := 100 })]

/-- The manager obtained by registering A/200, B/50, C/100. -/
def pmABC : PluginManager :=
  match registerAll NewPluginManager reqsABC with
  | .ok pm => pm
  | .error _ => NewPluginManager

/-- Registration requests A/50, B/100 (spec §8 shutdown-order example). -/
def reqsAB : List (Plugin × Option PluginConfig) :=
  [(mkPlugin "A", some { Enabled := true, Priority := 50 }),
   (mkPlugin "B", some { Enabled := true, Priority := 100 })]

/-- The manager obtained by registering A/50, B/100. -/
def pmAB : PluginManager :=
  match registerAll NewPluginManager reqsAB with
  | .ok pm => pm
  | .error _ => NewPluginManager

/-- A single disabled entry named D. -/
def entryD : pluginEntry :=
  entryOf (mkPlugin "D") false 100

/-- A manager holding only the disabled entry D. -/
def pmD : PluginManager :=
  { plugins := [entryD], initialized := false }

/-- Enabled P/50 (hooks succeed) before enabled Q/100 (tool-call hook
fails), R/200 after it. -/
def pmToolFail : PluginManager :=
  { plugins := [entryOf (mkPlugin "P") true 50,
                entryOf (mkToolFailPlugin "Q" "boom") true 100,
                entryOf (mkPlugin "R") true 200],
    initialized := false }

/-- Enabled F/50 (hooks succeed) before enabled G/100 whose shutdown
fails. -/
def pmShutFail : PluginManager :=
  { plugins := [entryOf (mkPlugin "F") true 50,
                entryOf (mkShutFailPlugin "G" "gerr") true 100],
    initialized := false }

/-! ## Theorems -/

/-- On any non-empty input without a parenthesis, `ParseToolPermission`
takes the legacy branch and succeeds with the trimmed input as tool name. -/
theorem parse_legacy_ok (s : String) (h1 : ¬s = "") (h2 : s.data.contains '(' = false) :
    ParseToolPermission s =
      .ok { Tool := goTrimSpace s, Command := "", Pattern := "", Original := s } := by
  unfold ParseToolPermission
  rw [if_neg h1, h2]
  rfl

/-- C4: `ParseToolPermission` on the spec examples: `Bash(git log:*)`
parses to tool `Bash`, command `git log`, pattern `*`; `Bash()`, the empty
string and `Bash(a:b:c)` all fail; and every non-empty string without a
`(` parses successfully in legacy form. -/
theorem C4_parse_tool_permission :
    (ParseToolPermission "Bash(git log:*)" =
      .ok { Tool := "Bash", Command := "git log", Pattern := "*",
            Original := "Bash(git log:*)" })
    ∧ (ParseToolPermission "Bash()").isOk = false
    ∧ (ParseToolPermission "").isOk = false
    ∧ (ParseToolPermission "Bash(a:b:c)").isOk = false
    ∧ ∀ s : String, ¬s = "" → s.data.contains '(' = false →
        ∃ tp, ParseToolPermission s = .ok tp ∧ tp.Tool = goTrimSpace s := by
  refine ⟨by decide, by decide, by decide, by decide, ?_⟩
  intro s h1 h2
  exact ⟨_, parse_legacy_ok s h1 h2, rfl⟩

/-- Witness for C4: the universally quantified legacy clause applied to
the concrete input `Bash`. -/
theorem C4_parse_tool_permission_witness :
    ∃ tp, ParseToolPermission "Bash" = .ok tp ∧ tp.Tool = goTrimSpace "Bash" :=
  C4_parse_tool_permission.2.2.2.2 "Bash" (by decide) (by decide)

/-- C3 counterexample: the whitespace-only input `" "` is non-empty, has
no parenthesis, and parses successfully — with an **empty** tool name,
refuting the claim that every successful parse has a non-empty tool. -/
theorem C3_counterexample :
    ∃ tp, ParseToolPermission " " = .ok tp ∧ tp.Tool = "" :=
  ⟨{ Tool := "", Command := "", Pattern := "", Original := " " }, by decide, rfl⟩

/-- C3 (amended): a successful parse yields an empty tool name exactly
when the input is a legacy-form string (no parenthesis) consisting
entirely of whitespace; every other successful parse has a non-empty
tool. -/
theorem C3_tool_nonempty (s : String) (tp : ToolPermission)
    (h : ParseToolPermission s = .ok tp) :
    tp.Tool = "" ↔ (s.data.contains '(' = false ∧ goTrimSpace s = "") := by
  unfold ParseToolPermission at h
  by_cases hs : s = ""
  · rw [if_pos hs] at h
    exact absurd h (by simp)
  · rw [if_neg hs] at h
    cases hc : s.data.contains '(' with
    | false =>
      rw [hc] at h
      simp only [Bool.not_false, if_true] at h
      cases h
      simp
    | true =>
      rw [hc] at h
      simp only [Bool.not_true, if_false] at h
      cases hm : permRegexMatch s.data with
      | none => rw [hm] at h; exact absurd h (by simp)
      | some groups =>
        obtain ⟨toolRaw, cmdRaw, patRaw⟩ := groups
        rw [hm] at h
        dsimp only at h
        by_cases htool : goTrimSpace ⟨toolRaw⟩ = ""
        · rw [if_pos htool] at h
          exact absurd h (by simp)
        · rw [if_neg htool] at h
          by_cases hcmd : goTrimSpace ⟨cmdRaw⟩ = ""
          · rw [if_pos hcmd] at h
            exact absurd h (by simp)
          · rw [if_neg hcmd] at h
            have htp : tp.Tool = goTrimSpace ⟨toolRaw⟩ := by
              cases h
              rfl
            rw [htp]
            simp [htool]

/-- Witness for C3's amended theorem: applied to the concrete successful
parse of `Bash(git log:*)`, whose tool name is non-empty. -/
theorem C3_tool_nonempty_witness :
    ({ Tool := "Bash", Command := "git log", Pattern := "*",
       Original := "Bash(git log:*)" } : ToolPermission).Tool = "" ↔
      (("Bash(git log:*)" : String).data.contains '(' = false ∧
        goTrimSpace "Bash(git log:*)" = "") :=
  C3_tool_nonempty "Bash(git log:*)" _ (by decide)

/-- `listHasPrefixB s p` agrees with the standard `List.isPrefixOf p s`. -/
theorem listHasPrefixB_eq (s p : List Char) : listHasPrefixB s p = p.isPrefixOf s := by
  induction p generalizing s with
  | nil => cases s <;> rfl
  | cons a ps ih =>
    cases s with
    | nil => rfl
    | cons c cs => simp [listHasPrefixB, List.isPrefixOf_cons₂, ih]

/-- `goHasPrefixB` agrees with `List.isPrefixOf` on the underlying data. -/
theorem goHasPrefixB_eq (s pre : String) : goHasPrefixB s pre = pre.data.isPrefixOf s.data :=
  listHasPrefixB_eq s.data pre.data

/-- `goHasSuffixB` agrees with `List.isSuffixOf` on the underlying data. -/
theorem goHasSuffixB_eq (s suf : String) : goHasSuffixB s suf = suf.data.isSuffixOf s.data :=
  listHasPrefixB_eq s.data.reverse suf.data.reverse

/-- Dropping the last two elements is taking all but two. -/
theorem dropLast_dropLast (l : List Char) : l.dropLast.dropLast = l.take (l.length - 2) := by
  rw [List.dropLast_eq_take, List.dropLast_eq_take, List.length_take, List.take_take]
  congr 1
  omega

/-- C5: `MatchesPattern` evaluates exactly the decision sequence the
specification describes (formalized as `specMatchesPattern`), and on the
spec examples: `src/**` matches `src/file.go` but not `test/file.go`,
and `*.go` matches `main.go` but not `main.js`. -/
theorem C5_matches_pattern_refinement :
    (∀ (tp : ToolPermission) (path : String),
        tp.MatchesPattern path = specMatchesPattern tp.Pattern path)
    ∧ (({ Tool := "Write", Command := "", Pattern := "src/**", Original := "" } :
          ToolPermission).MatchesPattern "src/file.go" = true)
    ∧ (({ Tool := "Write", Command := "", Pattern := "src/**", Original := "" } :
          ToolPermission).MatchesPattern "test/file.go" = false)
    ∧ (({ Tool := "Write", Command := "", Pattern := "*.go", Original := "" } :
          ToolPermission).MatchesPattern "main.go" = true)
    ∧ (({ Tool := "Write", Command := "", Pattern := "*.go", Original := "" } :
          ToolPermission).MatchesPattern "main.js" = false) := by
  refine ⟨?_, by decide, by decide, by decide, by decide⟩
  intro tp path
  simp only [ToolPermission.MatchesPattern, specMatchesPattern, ToolPermission.HasPattern,
    Bool.not_not, goHasSuffixB_eq, goHasPrefixB_eq, decide_eq_true_eq]
  split_ifs with h1 h2 h3 h4 h5 h6
  · rfl
  · rfl
  · rfl
  · have htrim : goTrimSuffixStr tp.Pattern "**" =
        ⟨tp.Pattern.data.take (tp.Pattern.data.length - 2)⟩ := by
      unfold goTrimSuffixStr
      rw [goHasSuffixB_eq, if_pos h4]
      rfl
    rw [htrim, dropLast_dropLast]
  · have htrim : goTrimSuffixStr tp.Pattern "*" =
        ⟨tp.Pattern.data.take (tp.Pattern.data.length - 1)⟩ := by
      unfold goTrimSuffixStr
      rw [goHasSuffixB_eq, if_pos h5]
      rfl
    rw [htrim, List.dropLast_eq_take]
  · have htrim : goTrimPrefixStr tp.Pattern "*" = ⟨tp.Pattern.data.drop 1⟩ := by
      unfold goTrimPrefixStr
      rw [goHasPrefixB_eq, if_pos h6]
      rfl
    rw [htrim]
  · rfl

/-- A prefix of the chain whose members all allow (or are nil) does not
affect the outcome: the loop proceeds past it. -/
theorem chainLoop_append_allows (toolName : String) (input : ToolInput)
    (pre rest : List (Option PermissionCallback))
    (h : ∀ c ∈ pre, chainAllows c toolName input) :
    chainLoop toolName input (pre ++ rest) = chainLoop toolName input rest := by
  induction pre with
  | nil => rfl
  | cons c pre ih =>
    have hc := h c (List.mem_cons_self _ _)
    have hrest : ∀ x ∈ pre, chainAllows x toolName input :=
      fun x hx => h x (List.mem_cons_of_mem _ hx)
    cases c with
    | none =>
      simpa [chainLoop] using ih hrest
    | some cb =>
      obtain ⟨r, hok, hallow⟩ := hc
      rw [List.cons_append]
      simp only [chainLoop, hok, hallow]
      simpa using ih hrest

/-- C6: `ChainCallbacks` evaluates its non-nil callbacks in order: after a
prefix that allows, an erroring callback aborts the chain with that error
and the arbitrary remainder `post` is never consulted; a non-allow result
is returned as the final result, again with `post` never consulted; if
every callback allows, the chain returns allow; and a deny callback
followed by an allow callback yields the deny result. -/
theorem C6_chain_callbacks (toolName : String) (input : ToolInput) :
    (∀ (pre : List (Option PermissionCallback)) (cb : PermissionCallback)
        (post : List (Option PermissionCallback)) (err : String),
        (∀ c ∈ pre, chainAllows c toolName input) →
        cb toolName input = .error err →
        ChainCallbacks (pre ++ some cb :: post) toolName input = .error err)
    ∧ (∀ (pre : List (Option PermissionCallback)) (cb : PermissionCallback)
        (post : List (Option PermissionCallback)) (r : PermissionResult),
        (∀ c ∈ pre, chainAllows c toolName input) →
        cb toolName input = .ok r → ¬r.Behavior = PermissionAllow →
        ChainCallbacks (pre ++ some cb :: post) toolName input = .ok r)
    ∧ (∀ cbs : List (Option PermissionCallback),
        (∀ c ∈ cbs, chainAllows c toolName input) →
        ChainCallbacks cbs toolName input = .ok Allow)
    ∧ (∀ (denyFn allowFn : PermissionCallback) (msg : String),
        denyFn toolName input = .ok (Deny msg) →
        ChainCallbacks [some denyFn, some allowFn] toolName input = .ok (Deny msg)) := by
  have hshort : ∀ (pre : List (Option PermissionCallback)) (cb : PermissionCallback)
      (post : List (Option PermissionCallback)) (r : PermissionResult),
      (∀ c ∈ pre, chainAllows c toolName input) →
      cb toolName input = .ok r → ¬r.Behavior = PermissionAllow →
      ChainCallbacks (pre ++ some cb :: post) toolName input = .ok r := by
    intro pre cb post r hpre hok hnall
    unfold ChainCallbacks
    rw [chainLoop_append_allows toolName input pre _ hpre]
    simp [chainLoop, hok, hnall]
  refine ⟨?_, hshort, ?_, ?_⟩
  · intro pre cb post err hpre herr
    unfold ChainCallbacks
    rw [chainLoop_append_allows toolName input pre _ hpre]
    simp [chainLoop, herr]
  · intro cbs h
    have := chainLoop_append_allows toolName input cbs [] h
    rw [List.append_nil] at this
    unfold ChainCallbacks
    rw [this]
    rfl
  · intro denyFn allowFn msg hdeny
    exact hshort [] denyFn [some allowFn] (Deny msg) (by simp) hdeny
      (show ¬PermissionDeny = PermissionAllow by decide)

/-- Witness for C6: a concrete deny-then-allow chain returns the deny
result (independently of the allow callback, which is never invoked). -/
theorem C6_chain_callbacks_witness :
    ChainCallbacks [some denyCbExample, some allowCbExample] "Bash" {} =
      .ok (Deny "blocked") :=
  (C6_chain_callbacks "Bash" {}).2.2.2 denyCbExample allowCbExample "blocked" rfl

/-- Reading back the key just written returns the written value. -/
theorem assocGet_assocSet_self (m : List (String × ℚ)) (k : String) (v : ℚ) :
    assocGet (assocSet m k v) k = v := by
  induction m with
  | nil => simp [assocSet, assocGet, List.find?]
  | cons kv rest ih =>
    by_cases hk : (kv.1 == k) = true
    · simp [assocSet, hk, assocGet, List.find?]
    · simp only [assocSet, Bool.not_eq_true] at hk ⊢
      rw [hk]
      simp only [if_false, Bool.false_eq_true]
      simpa [assocGet, List.find?, hk] using ih

/-- C7: `AddSpend` always records the spend — the new global total and the
session total each grow by the amount, with no rollback — and returns the
dedicated `BudgetExceeded` error exactly when a positive budget is
configured and the new global total strictly exceeds it.  Concretely, from
an empty tracker with `max = 10`: `AddSpend("s1",5)` succeeds,
`AddSpend("s1",6)` returns `BudgetExceeded` yet leaves `TotalSpent() = 11`
and `RemainingBudget() = 0`, and `ResetSession("s1")` returns the totals
to `0`. -/
theorem C7_add_spend_records_and_flags :
    (∀ (bt : BudgetTracker) (sid : String) (amount : ℚ),
        (bt.AddSpend sid amount).1.totalSpent = bt.totalSpent + amount
        ∧ (bt.AddSpend sid amount).1.SessionSpent sid = bt.SessionSpent sid + amount
        ∧ ((bt.AddSpend sid amount).2 = some .budgetExceeded ↔
            0 < bt.config.MaxBudgetUSD ∧ bt.config.MaxBudgetUSD < bt.totalSpent + amount))
    ∧ (btExample0.AddSpend "s1" 5).2 = none
    ∧ (btExample1.AddSpend "s1" 6).2 = some .budgetExceeded
    ∧ btExample2.TotalSpent = 11
    ∧ btExample2.RemainingBudget = 0
    ∧ (btExample2.ResetSession "s1").TotalSpent = 0
    ∧ (btExample2.ResetSession "s1").SessionSpent "s1" = 0 := by
  refine ⟨?_,
    by norm_num [btExample0, NewBudgetTracker, BudgetTracker.AddSpend],
    by norm_num [btExample1, btExample0, NewBudgetTracker, BudgetTracker.AddSpend,
          assocGet, assocSet, List.find?],
    by norm_num [btExample2, btExample1, btExample0, NewBudgetTracker,
          BudgetTracker.AddSpend, BudgetTracker.TotalSpent, assocGet, assocSet, List.find?],
    by norm_num [btExample2, btExample1, btExample0, NewBudgetTracker,
          BudgetTracker.AddSpend, BudgetTracker.RemainingBudget, assocGet, assocSet,
          List.find?],
    by norm_num [btExample2, btExample1, btExample0, NewBudgetTracker,
          BudgetTracker.AddSpend, BudgetTracker.ResetSession, BudgetTracker.TotalSpent,
          assocGet, assocSet, assocDelete, List.find?],
    by norm_num [btExample2, btExample1, btExample0, NewBudgetTracker,
          BudgetTracker.AddSpend, BudgetTracker.ResetSession, BudgetTracker.SessionSpent,
          assocGet, assocSet, assocDelete, List.find?, List.filter]⟩
  intro bt sid amount
  unfold BudgetTracker.AddSpend BudgetTracker.SessionSpent
  dsimp only
  split_ifs <;> refine ⟨rfl, assocGet_assocSet_self _ _ _, ?_⟩ <;> simp_all

/-- Members of `insertByPriority e l` are `e` or members of `l`. -/
theorem insertByPriority_mem {e x : pluginEntry} {l : List pluginEntry}
    (hx : x ∈ insertByPriority e l) : x = e ∨ x ∈ l := by
  induction l with
  | nil =>
    simp only [insertByPriority, List.mem_singleton] at hx
    exact Or.inl hx
  | cons y rest ih =>
    simp only [insertByPriority] at hx
    by_cases h : e.priority < y.priority
    · rw [if_pos h] at hx
      rcases List.mem_cons.mp hx with h1 | h2
      · exact Or.inl h1
      · exact Or.inr h2
    · rw [if_neg h] at hx
      rcases List.mem_cons.mp hx with h1 | h2
      · exact Or.inr (h1 ▸ List.mem_cons_self _ _)
      · rcases ih h2 with h3 | h4
        · exact Or.inl h3
        · exact Or.inr (List.mem_cons_of_mem _ h4)

/-- `insertByPriority` preserves sortedness by priority. -/
theorem insertByPriority_sorted {e : pluginEntry} {l : List pluginEntry}
    (h : l.Pairwise (fun a b => a.priority ≤ b.priority)) :
    (insertByPriority e l).Pairwise (fun a b => a.priority ≤ b.priority) := by
  induction l with
  | nil => simp [insertByPriority]
  | cons y rest ih =>
    rcases List.pairwise_cons.mp h with ⟨hy, hrest⟩
    simp only [insertByPriority]
    by_cases hlt : e.priority < y.priority
    · rw [if_pos hlt]
      refine List.Pairwise.cons ?_ h
      intro z hz
      rcases List.mem_cons.mp hz with h1 | h2
      · exact h1 ▸ le_of_lt hlt
      · exact le_trans (le_of_lt hlt) (hy z h2)
    · rw [if_neg hlt]
      refine List.Pairwise.cons ?_ (ih hrest)
      intro z hz
      rcases insertByPriority_mem hz with h1 | h2
      · exact h1 ▸ not_lt.mp hlt
      · exact hy z h2

/-- Entries of priority `p` do not occur in a list whose members all have
priority above `p`. -/
theorem filter_priority_eq_nil {l : List pluginEntry} {p : Int}
    (h : ∀ x ∈ l, p < x.priority) :
    l.filter (fun x => x.priority == p) = [] := by
  induction l with
  | nil => rfl
  | cons y rest ih =>
    have hy := h y (List.mem_cons_self _ _)
    have hne : (y.priority == p) = false := by
      rw [beq_eq_false_iff_ne]
      omega
    rw [List.filter_cons, hne]
    simp only [Bool.false_eq_true, if_false]
    exact ih (fun x hx => h x (List.mem_cons_of_mem _ hx))

/-- On a sorted list, `insertByPriority` places the new entry after all
existing entries of its priority: filtering at any priority shows the new
entry appended at the end of its priority class. -/
theorem insertByPriority_filter {e : pluginEntry} {l : List pluginEntry} (p : Int)
    (hs : l.Pairwise (fun a b => a.priority ≤ b.priority)) :
    (insertByPriority e l).filter (fun x => x.priority == p) =
      if e.priority = p then l.filter (fun x => x.priority == p) ++ [e]
      else l.filter (fun x => x.priority == p) := by
  induction l with
  | nil =>
    by_cases hp : e.priority = p
    · simp [insertByPriority, List.filter_cons, hp]
    · simp [insertByPriority, List.filter_cons, hp]
  | cons y rest ih =>
    rcases List.pairwise_cons.mp hs with ⟨hy, hrest⟩
    simp only [insertByPriority]
    by_cases hlt : e.priority < y.priority
    · rw [if_pos hlt]
      by_cases hp : e.priority = p
      · have hnil : (y :: rest).filter (fun x => x.priority == p) = [] := by
          refine filter_priority_eq_nil ?_
          intro x hx
          rcases List.mem_cons.mp hx with h1 | h2
          · subst h1; omega
          · have := hy x h2; omega
        rw [if_pos hp, hnil]
        rw [List.filter_cons]
        have : (e.priority == p) = true := beq_iff_eq.mpr hp
        rw [this]
        simp [hnil]
      · rw [if_neg hp]
        rw [List.filter_cons]
        have : (e.priority == p) = false := beq_eq_false_iff_ne.mpr hp
        rw [this]
        simp
    · rw [if_neg hlt]
      rw [List.filter_cons, List.filter_cons]
      by_cases hyp : (y.priority == p) = true
      · rw [hyp]
        simp only [if_true]
        rw [ih hrest]
        split_ifs <;> simp
      · rw [Bool.not_eq_true] at hyp
        rw [hyp]
        simp only [Bool.false_eq_true, if_false]
        exact ih hrest

/-- Any successful sequence of `Register` calls starting from a sorted
registry keeps it sorted, and the entries at each priority are the
successful requests of that effective priority, appended in request
order. -/
theorem registerAll_ok_invariant :
    ∀ (reqs : List (Plugin × Option PluginConfig)) (pm pm' : PluginManager),
      registerAll pm reqs = .ok pm' →
      pm.plugins.Pairwise (fun a b => a.priority ≤ b.priority) →
      pm'.plugins.Pairwise (fun a b => a.priority ≤ b.priority)
      ∧ ∀ p : Int,
          ((pm'.plugins.filter fun e => e.priority == p).map fun e => e.plugin.name) =
            ((pm.plugins.filter fun e => e.priority == p).map fun e => e.plugin.name)
            ++ ((reqs.filter fun r => effPriority r.2 == p).map fun r => r.1.name) := by
  intro reqs
  induction reqs with
  | nil =>
    intro pm pm' h hs
    simp only [registerAll] at h
    cases h
    exact ⟨hs, fun p => by simp⟩
  | cons r rest ih =>
    intro pm pm' h hs
    simp only [registerAll] at h
    cases hreg : PluginManager.Register pm (some r.1) r.2 with
    | error err => rw [hreg] at h; exact absurd h (by simp)
    | ok pm2 =>
      rw [hreg] at h
      unfold PluginManager.Register at hreg
      dsimp only at hreg
      by_cases h1 : r.1.name = ""
      · rw [if_pos h1] at hreg
        exact absurd hreg (by simp)
      · rw [if_neg h1] at hreg
        by_cases h2 : (pm.plugins.any fun e => e.plugin.name == r.1.name) = true
        · rw [if_pos h2] at hreg
          exact absurd hreg (by simp)
        · rw [if_neg h2] at hreg
          cases hreg
          obtain ⟨hsorted, hfilter⟩ := ih _ pm' h (insertByPriority_sorted hs)
          refine ⟨hsorted, ?_⟩
          intro p
          rw [hfilter p]
          dsimp only
          rw [insertByPriority_filter p hs]
          rw [List.filter_cons]
          by_cases hp : effPriority r.2 = p
          · have hpif : (if (r.2.getD { Enabled := true, Priority := 100 }).Priority = 0
                then (100 : Int)
                else (r.2.getD { Enabled := true, Priority := 100 }).Priority) = p := hp
            rw [if_pos hpif]
            have hpb : (effPriority r.2 == p) = true := beq_iff_eq.mpr hp
            rw [hpb]
            simp [List.map_append, List.append_assoc]
          · have hpif : ¬(if (r.2.getD { Enabled := true, Priority := 100 }).Priority = 0
                then (100 : Int)
                else (r.2.getD { Enabled := true, Priority := 100 }).Priority) = p := hp
            rw [if_neg hpif]
            have hpb : (effPriority r.2 == p) = false := beq_eq_false_iff_ne.mpr hp
            rw [hpb]
            simp

/-- C1: after any sequence of successful `Register` calls on a fresh
manager, the registry is sorted by effective priority in non-decreasing
order, and within each priority class the names are exactly the requests
of that effective priority in registration order (stable ties); `List()`
reads the names off this registry order.  In particular registering
A/200, B/50, C/100 yields `List() = [B, C, A]`. -/
theorem C1_list_sorted_stable :
    (∀ (reqs : List (Plugin × Option PluginConfig)) (pm' : PluginManager),
        registerAll NewPluginManager reqs = .ok pm' →
        pm'.plugins.Pairwise (fun a b => a.priority ≤ b.priority)
        ∧ ∀ p : Int,
            ((pm'.plugins.filter fun e => e.priority == p).map fun e => e.plugin.name) =
              ((reqs.filter fun r => effPriority r.2 == p).map fun r => r.1.name))
    ∧ registerAll NewPluginManager reqsABC = .ok pmABC
    ∧ PluginManager.List pmABC = ["B", "C", "A"] := by
  refine ⟨?_, rfl, rfl⟩
  intro reqs pm' h
  obtain ⟨hsorted, hfilter⟩ :=
    registerAll_ok_invariant reqs NewPluginManager pm' h (by constructor)
  refine ⟨hsorted, ?_⟩
  intro p
  have := hfilter p
  simpa [NewPluginManager] using this

/-- Witness for C1: the registry built from requests A/200, B/50, C/100 is
sorted, and its priority-100 class is exactly the priority-100 requests in
order. -/
theorem C1_list_sorted_stable_witness :
    pmABC.plugins.Pairwise (fun a b => a.priority ≤ b.priority)
    ∧ ((pmABC.plugins.filter fun e => e.priority == 100).map fun e => e.plugin.name) =
        ((reqsABC.filter fun r => effPriority r.2 == 100).map fun r => r.1.name) := by
  have h := C1_list_sorted_stable.1 reqsABC pmABC rfl
  exact ⟨h.1, h.2 100⟩

/-- A successful dispatch loop invoked exactly the enabled entries, in
order. -/
theorem hookLoop_ok_trace (wrap : String → String → String)
    (hook : pluginEntry → Except String Unit) (l : List pluginEntry)
    (h : (hookLoop wrap hook l).2 = .ok ()) :
    (hookLoop wrap hook l).1 =
      (l.filter fun e => !entryDisabled e).map fun e => e.plugin.name := by
  induction l with
  | nil => rfl
  | cons e rest ih =>
    by_cases hd : entryDisabled e = true
    · simp only [hookLoop, hd, if_true] at h ⊢
      rw [List.filter_cons]
      simp only [hd, Bool.not_true, Bool.false_eq_true, if_false]
      exact ih h
    · have hd' : entryDisabled e = false := by simpa using hd
      simp only [hookLoop, hd', Bool.false_eq_true, if_false] at h ⊢
      cases hk : hook e with
      | error err =>
        rw [hk] at h
        exact absurd h (by simp)
      | ok u =>
        cases u
        rw [hk] at h
        dsimp only at h ⊢
        rw [List.filter_cons]
        simp only [hd', Bool.not_false, if_true, List.map_cons]
        rw [ih h]

/-- The trace of any dispatch loop is an initial segment of the enabled
entries: disabled entries are never invoked. -/
theorem hookLoop_trace_take (wrap : String → String → String)
    (hook : pluginEntry → Except String Unit) (l : List pluginEntry) :
    ∃ k, (hookLoop wrap hook l).1 =
      ((l.filter fun e => !entryDisabled e).map fun e => e.plugin.name).take k := by
  induction l with
  | nil => exact ⟨0, rfl⟩
  | cons e rest ih =>
    by_cases hd : entryDisabled e = true
    · obtain ⟨k, hk⟩ := ih
      refine ⟨k, ?_⟩
      simp only [hookLoop, hd, if_true, List.filter_cons, Bool.not_true,
        Bool.false_eq_true, if_false]
      exact hk
    · have hd' : entryDisabled e = false := by simpa using hd
      cases hk : hook e with
      | error err =>
        refine ⟨1, ?_⟩
        simp [hookLoop, hd', hk, List.filter_cons]
      | ok u =>
        cases u
        obtain ⟨k, hkk⟩ := ih
        refine ⟨k + 1, ?_⟩
        simp only [hookLoop, hd', Bool.false_eq_true, if_false, hk, List.filter_cons,
          Bool.not_false, if_true, List.map_cons, List.take_succ_cons]
        rw [hkk]

/-- When every enabled hook succeeds, the loop succeeds and invokes
exactly the enabled entries in order. -/
theorem hookLoop_all_ok (wrap : String → String → String)
    (hook : pluginEntry → Except String Unit) (l : List pluginEntry)
    (h : ∀ e ∈ l, entryDisabled e = false → hook e = .ok ()) :
    hookLoop wrap hook l =
      ((l.filter fun e => !entryDisabled e).map fun e => e.plugin.name, .ok ()) := by
  induction l with
  | nil => rfl
  | cons e rest ih =>
    have hrest : ∀ x ∈ rest, entryDisabled x = false → hook x = .ok () :=
      fun x hx => h x (List.mem_cons_of_mem _ hx)
    by_cases hd : entryDisabled e = true
    · simp only [hookLoop, hd, if_true, List.filter_cons, Bool.not_true,
        Bool.false_eq_true, if_false]
      exact ih hrest
    · have hd' : entryDisabled e = false := by simpa using hd
      have hk : hook e = .ok () := h e (List.mem_cons_self _ _) hd'
      simp only [hookLoop, hd', Bool.false_eq_true, if_false, hk, List.filter_cons,
        Bool.not_false, if_true, List.map_cons]
      rw [ih hrest]

/-- Fail-fast: if the enabled entries split as `l₁ ++ e :: l₂` with all of
`l₁` succeeding and `e` failing, the loop invokes exactly `l₁` and `e` and
returns `e`'s error wrapped with its name; `l₂` is never invoked. -/
theorem hookLoop_first_error (wrap : String → String → String)
    (hook : pluginEntry → Except String Unit) :
    ∀ (l l₁ : List pluginEntry) (e : pluginEntry) (l₂ : List pluginEntry) (err : String),
      l.filter (fun x => !entryDisabled x) = l₁ ++ e :: l₂ →
      (∀ x ∈ l₁, hook x = .ok ()) → hook e = .error err →
      hookLoop wrap hook l = ((l₁.map fun x => x.plugin.name) ++ [e.plugin.name],
        .error (wrap e.plugin.name err)) := by
  intro l
  induction l with
  | nil =>
    intro l₁ e l₂ err hf hok herr
    exact absurd hf.symm (by simp)
  | cons y rest ih =>
    intro l₁ e l₂ err hf hok herr
    by_cases hd : entryDisabled y = true
    · rw [List.filter_cons] at hf
      simp only [hd, Bool.not_true, Bool.false_eq_true, if_false] at hf
      simp only [hookLoop, hd, if_true]
      exact ih l₁ e l₂ err hf hok herr
    · have hd' : entryDisabled y = false := by simpa using hd
      rw [List.filter_cons] at hf
      simp only [hd', Bool.not_false, if_true] at hf
      cases l₁ with
      | nil =>
        rw [List.nil_append] at hf
        obtain ⟨hye, -⟩ := (List.cons.injEq _ _ _ _).mp hf
        subst hye
        simp [hookLoop, hd', herr]
      | cons z l₁ =>
        rw [List.cons_append] at hf
        obtain ⟨hyz, hrest⟩ := (List.cons.injEq _ _ _ _).mp hf
        subst hyz
        have hyok : hook y = .ok () := hok y (List.mem_cons_self _ _)
        simp only [hookLoop, hd', Bool.false_eq_true, if_false, hyok, List.map_cons,
          List.cons_append]
        rw [ih l₁ e l₂ err hrest (fun x hx => hok x (List.mem_cons_of_mem _ hx)) herr]

/-- `shutdownLoop` visits every entry, in order. -/
theorem shutdownLoop_trace (l : List pluginEntry) :
    (shutdownLoop l).1 = l.map fun e => e.plugin.name := by
  induction l with
  | nil => rfl
  | cons e rest ih => simp [shutdownLoop, ih]

/-- `shutdownLoop` reports no error exactly when every visited shutdown
hook succeeds. -/
theorem shutdownLoop_none_iff (l : List pluginEntry) :
    (shutdownLoop l).2 = none ↔ ∀ e ∈ l, e.plugin.shutdownResult = .ok () := by
  induction l with
  | nil => simp [shutdownLoop]
  | cons e rest ih =>
    simp only [shutdownLoop]
    cases hr : (shutdownLoop rest).2 with
    | some v =>
      simp only [hr]
      constructor
      · intro h; exact absurd h (by simp)
      · intro hall
        have := ih.mpr (fun x hx => hall x (List.mem_cons_of_mem _ hx))
        rw [this] at hr
        exact absurd hr (by simp)
    | none =>
      cases hstep : e.plugin.shutdownResult with
      | ok u =>
        cases u
        simp only [hr, hstep]
        constructor
        · intro _ x hx
          rcases List.mem_cons.mp hx with h1 | h2
          · rw [h1]; exact hstep
          · exact ih.mp hr x h2
        · intro _; trivial
      | error msg =>
        simp only [hr, hstep]
        constructor
        · intro h; exact absurd h (by simp)
        · intro hall
          exact absurd (hall e (List.mem_cons_self _ _)) (by simp [hstep])

/-- The error `shutdownLoop` keeps is the error of the failing entry
visited last: if everything after `e` (in visit order) succeeds and `e`
fails, the reported error is `e`'s, wrapped with its name. -/
theorem shutdownLoop_last_error :
    ∀ (xs : List pluginEntry) (e : pluginEntry) (ys : List pluginEntry) (err : String),
      (∀ x ∈ ys, x.plugin.shutdownResult = .ok ()) →
      e.plugin.shutdownResult = .error err →
      (shutdownLoop (xs ++ e :: ys)).2 =
        some ("failed to shutdown plugin " ++ e.plugin.name ++ ": " ++ err) := by
  intro xs
  induction xs with
  | nil =>
    intro e ys err hys herr
    have h2 : (shutdownLoop ys).2 = none := (shutdownLoop_none_iff ys).mpr hys
    simp only [List.nil_append, shutdownLoop, h2, herr]
  | cons x xs ih =>
    intro e ys err hys herr
    simp only [List.cons_append, shutdownLoop, List.append_eq, ih e ys err hys herr]

/-- C8: `Initialize` is idempotent.  If a first `Initialize` succeeds, a
second call is a no-op: same state, empty invocation trace, success —
so across both calls each enabled plugin was initialized exactly once
(the first call's trace lists the enabled entries once each, in order). -/
theorem C8_initialize_idempotent (pm : PluginManager)
    (h : (pm.Initialize).2.2 = .ok ()) :
    (pm.Initialize).1.Initialize = ((pm.Initialize).1, ([], .ok ()))
    ∧ (pm.initialized = false →
        (pm.Initialize).2.1 = (enabledEntries pm).map fun e => e.plugin.name) := by
  by_cases hi : pm.initialized
  · constructor
    · simp [PluginManager.Initialize, hi]
    · intro hfalse
      rw [hfalse] at hi
      exact absurd hi (by simp)
  · have hi' : pm.initialized = false := by simpa using hi
    rcases hhl : hookLoop wrapInit (fun e => e.plugin.initResult) pm.plugins with ⟨tr, r⟩
    cases r with
    | error err =>
      rw [show (pm.Initialize).2.2 = .error err by simp [PluginManager.Initialize, hi', hhl]] at h
      exact absurd h (by simp)
    | ok u =>
      cases u
      have hfirst : pm.Initialize = ({ pm with initialized := true }, tr, .ok ()) := by
        simp [PluginManager.Initialize, hi', hhl]
      constructor
      · rw [hfirst]
        simp [PluginManager.Initialize]
      · intro _
        rw [hfirst]
        have htr := hookLoop_ok_trace wrapInit (fun e => e.plugin.initResult) pm.plugins
          (by rw [hhl])
        rw [hhl] at htr
        simpa [enabledEntries] using htr

/-- Witness for C8: on the concrete manager with A/200, B/50, C/100 the
first `Initialize` succeeds; the second call is a no-op and the first
call's trace is the enabled names. -/
theorem C8_initialize_idempotent_witness :
    (pmABC.Initialize).1.Initialize = ((pmABC.Initialize).1, ([], .ok ()))
    ∧ (pmABC.Initialize).2.1 = (enabledEntries pmABC).map fun e => e.plugin.name :=
  ⟨(C8_initialize_idempotent pmABC rfl).1,
   (C8_initialize_idempotent pmABC rfl).2 rfl⟩

/-- C2 counterexample: the disabled plugin D **does** receive a `Shutdown`
hook invocation — `Shutdown` visits every entry, disabled or not — so a
disabled plugin does not receive zero hook invocations of every kind. -/
theorem C2_counterexample :
    entryDisabled entryD = true ∧ (pmD.Shutdown).2.1 = ["D"] :=
  ⟨rfl, rfl⟩

/-- C2 (amended): a disabled entry receives no `Initialize`, `OnToolCall`,
`OnMessage` or `OnComplete` invocation — each of those traces is an
initial segment of the enabled entries, in order — but `Shutdown` invokes
every registered entry, disabled ones included. -/
theorem C2_disabled_skipped_except_shutdown :
    ∀ (pm : PluginManager) (tn : String) (inp : ToolInput) (msg : Message)
      (res : ClaudeResult),
      (∃ k, (pm.Initialize).2.1 =
          ((enabledEntries pm).map fun e => e.plugin.name).take k)
      ∧ (∃ k, (pm.OnToolCall tn inp).1 =
          ((enabledEntries pm).map fun e => e.plugin.name).take k)
      ∧ (∃ k, (pm.OnMessage msg).1 =
          ((enabledEntries pm).map fun e => e.plugin.name).take k)
      ∧ (∃ k, (pm.OnComplete res).1 =
          ((enabledEntries pm).map fun e => e.plugin.name).take k)
      ∧ (pm.Shutdown).2.1 = pm.plugins.reverse.map fun e => e.plugin.name := by
  intro pm tn inp msg res
  refine ⟨?_, ?_, ?_, ?_, ?_⟩
  · by_cases hi : pm.initialized
    · exact ⟨0, by simp [PluginManager.Initialize, hi]⟩
    · have hi' : pm.initialized = false := by simpa using hi
      obtain ⟨k, hk⟩ := hookLoop_trace_take wrapInit (fun e => e.plugin.initResult) pm.plugins
      refine ⟨k, ?_⟩
      rcases hhl : hookLoop wrapInit (fun e => e.plugin.initResult) pm.plugins with ⟨tr, r⟩
      rw [hhl] at hk
      cases r with
      | ok u =>
        cases u
        simp only [PluginManager.Initialize, hi', Bool.false_eq_true, if_false, hhl]
        simpa [enabledEntries] using hk
      | error err =>
        simp only [PluginManager.Initialize, hi', Bool.false_eq_true, if_false, hhl]
        simpa [enabledEntries] using hk
  · obtain ⟨k, hk⟩ :=
      hookLoop_trace_take wrapToolCall (fun e => e.plugin.toolCallResult tn inp) pm.plugins
    exact ⟨k, by simpa [PluginManager.OnToolCall, enabledEntries] using hk⟩
  · obtain ⟨k, hk⟩ :=
      hookLoop_trace_take wrapMessage (fun e => e.plugin.messageResult msg) pm.plugins
    exact ⟨k, by simpa [PluginManager.OnMessage, enabledEntries] using hk⟩
  · obtain ⟨k, hk⟩ :=
      hookLoop_trace_take wrapComplete (fun e => e.plugin.completeResult res) pm.plugins
    exact ⟨k, by simpa [PluginManager.OnComplete, enabledEntries] using hk⟩
  · simp [PluginManager.Shutdown, shutdownLoop_trace]

/-- C9: each of `OnToolCall`, `OnMessage`, `OnComplete` invokes its hook
on every enabled entry in registry order (which is ascending priority
order, preserved by filtering), sequentially; if every enabled hook
succeeds the call succeeds, and the first plugin error aborts the
remaining iteration, returning that error wrapped with the offending
plugin's name. -/
theorem C9_hooks_fail_fast :
    ∀ (pm : PluginManager) (tn : String) (inp : ToolInput) (msg : Message)
      (res : ClaudeResult),
      ((∀ e ∈ pm.plugins, entryDisabled e = false → e.plugin.toolCallResult tn inp = .ok ()) →
        pm.OnToolCall tn inp = ((enabledEntries pm).map fun e => e.plugin.name, .ok ()))
      ∧ (∀ (l₁ : List pluginEntry) (e : pluginEntry) (l₂ : List pluginEntry) (err : String),
          enabledEntries pm = l₁ ++ e :: l₂ →
          (∀ x ∈ l₁, x.plugin.toolCallResult tn inp = .ok ()) →
          e.plugin.toolCallResult tn inp = .error err →
          pm.OnToolCall tn inp = ((l₁.map fun x => x.plugin.name) ++ [e.plugin.name],
            .error (wrapToolCall e.plugin.name err)))
      ∧ ((∀ e ∈ pm.plugins, entryDisabled e = false → e.plugin.messageResult msg = .ok ()) →
        pm.OnMessage msg = ((enabledEntries pm).map fun e => e.plugin.name, .ok ()))
      ∧ (∀ (l₁ : List pluginEntry) (e : pluginEntry) (l₂ : List pluginEntry) (err : String),
          enabledEntries pm = l₁ ++ e :: l₂ →
          (∀ x ∈ l₁, x.plugin.messageResult msg = .ok ()) →
          e.plugin.messageResult msg = .error err →
          pm.OnMessage msg = ((l₁.map fun x => x.plugin.name) ++ [e.plugin.name],
            .error (wrapMessage e.plugin.name err)))
      ∧ ((∀ e ∈ pm.plugins, entryDisabled e = false → e.plugin.completeResult res = .ok ()) →
        pm.OnComplete res = ((enabledEntries pm).map fun e => e.plugin.name, .ok ()))
      ∧ (∀ (l₁ : List pluginEntry) (e : pluginEntry) (l₂ : List pluginEntry) (err : String),
          enabledEntries pm = l₁ ++ e :: l₂ →
          (∀ x ∈ l₁, x.plugin.completeResult res = .ok ()) →
          e.plugin.completeResult res = .error err →
          pm.OnComplete res = ((l₁.map fun x => x.plugin.name) ++ [e.plugin.name],
            .error (wrapComplete e.plugin.name err)))
      ∧ (pm.plugins.Pairwise (fun a b => a.priority ≤ b.priority) →
          (enabledEntries pm).Pairwise (fun a b => a.priority ≤ b.priority)) := by
  intro pm tn inp msg res
  refine ⟨?_, ?_, ?_, ?_, ?_, ?_, ?_⟩
  · intro hall
    simpa [PluginManager.OnToolCall, enabledEntries] using
      hookLoop_all_ok wrapToolCall (fun e => e.plugin.toolCallResult tn inp) pm.plugins hall
  · intro l₁ e l₂ err hsplit hok herr
    simpa [PluginManager.OnToolCall] using
      hookLoop_first_error wrapToolCall (fun e => e.plugin.toolCallResult tn inp)
        pm.plugins l₁ e l₂ err (by simpa [enabledEntries] using hsplit) hok herr
  · intro hall
    simpa [PluginManager.OnMessage, enabledEntries] using
      hookLoop_all_ok wrapMessage (fun e => e.plugin.messageResult msg) pm.plugins hall
  · intro l₁ e l₂ err hsplit hok herr
    simpa [PluginManager.OnMessage] using
      hookLoop_first_error wrapMessage (fun e => e.plugin.messageResult msg)
        pm.plugins l₁ e l₂ err (by simpa [enabledEntries] using hsplit) hok herr
  · intro hall
    simpa [PluginManager.OnComplete, enabledEntries] using
      hookLoop_all_ok wrapComplete (fun e => e.plugin.completeResult res) pm.plugins hall
  · intro l₁ e l₂ err hsplit hok herr
    simpa [PluginManager.OnComplete] using
      hookLoop_first_error wrapComplete (fun e => e.plugin.completeResult res)
        pm.plugins l₁ e l₂ err (by simpa [enabledEntries] using hsplit) hok herr
  · intro hp
    exact hp.filter _

/-- Witness for C9: in the concrete manager P/50 (ok), Q/100 (tool-call
hook fails with `boom`), R/200 (ok), `OnToolCall` invokes P then Q,
returns Q's wrapped error, and never invokes R. -/
theorem C9_hooks_fail_fast_witness :
    pmToolFail.OnToolCall "Bash" {} = (["P", "Q"], .error (wrapToolCall "Q" "boom")) := by
  have h := (C9_hooks_fail_fast pmToolFail "Bash" {} {} {}).2.1
      [entryOf (mkPlugin "P") true 50] (entryOf (mkToolFailPlugin "Q" "boom") true 100)
      [entryOf (mkPlugin "R") true 200] "boom" rfl
      (by intro x hx; rw [List.mem_singleton] at hx; subst hx; rfl) rfl
  exact h

/-- C10: `Shutdown` resets the initialized flag unconditionally, visits
every entry — disabled ones included — in reverse registry order (the
descending-priority order), returns no error exactly when every shutdown
hook succeeds, and otherwise returns the last error encountered in its
reverse iteration (the error of the earliest failing entry preceded only
by succeeding entries).  In particular with A/50 and B/100 registered,
B is shut down before A. -/
theorem C10_shutdown_reverse_best_effort :
    (∀ pm : PluginManager,
      (pm.Shutdown).1.initialized = false
      ∧ (pm.Shutdown).1.plugins = pm.plugins
      ∧ ((pm.Shutdown).2.1 = pm.plugins.reverse.map fun e => e.plugin.name)
      ∧ ((pm.Shutdown).2.2 = none ↔ ∀ e ∈ pm.plugins, e.plugin.shutdownResult = .ok ())
      ∧ (∀ (l₁ : List pluginEntry) (e : pluginEntry) (l₂ : List pluginEntry) (err : String),
          pm.plugins = l₁ ++ e :: l₂ →
          (∀ x ∈ l₁, x.plugin.shutdownResult = .ok ()) →
          e.plugin.shutdownResult = .error err →
          (pm.Shutdown).2.2 =
            some ("failed to shutdown plugin " ++ e.plugin.name ++ ": " ++ err)))
    ∧ (pmAB.Shutdown).2.1 = ["B", "A"] := by
  refine ⟨?_, rfl⟩
  intro pm
  refine ⟨rfl, rfl, ?_, ?_, ?_⟩
  · simp [PluginManager.Shutdown, shutdownLoop_trace]
  · rw [show (pm.Shutdown).2.2 = (shutdownLoop pm.plugins.reverse).2 from rfl]
    rw [shutdownLoop_none_iff]
    constructor
    · intro h e he
      exact h e (List.mem_reverse.mpr he)
    · intro h e he
      exact h e (List.mem_reverse.mp he)
  · intro l₁ e l₂ err hsplit hok herr
    rw [show (pm.Shutdown).2.2 = (shutdownLoop pm.plugins.reverse).2 from rfl]
    have hrev : pm.plugins.reverse = l₂.reverse ++ e :: l₁.reverse := by
      rw [hsplit]
      simp
    rw [hrev]
    exact shutdownLoop_last_error l₂.reverse e l₁.reverse err
      (fun x hx => hok x (List.mem_reverse.mp hx)) herr

/-- Witness for C10: in the concrete manager F/50 (ok), G/100 (shutdown
fails with `gerr`), `Shutdown` reports G's wrapped error. -/
theorem C10_shutdown_witness :
    (pmShutFail.Shutdown).2.2 =
      some ("failed to shutdown plugin " ++ "G" ++ ": " ++ "gerr") := by
  have h := (C10_shutdown_reverse_best_effort.1 pmShutFail).2.2.2.2
      [entryOf (mkPlugin "F") true 50] (entryOf (mkShutFailPlugin "G" "gerr") true 100)
      [] "gerr" rfl
      (by intro x hx; rw [List.mem_singleton] at hx; subst hx; rfl) rfl
  exact h
